import Mathlib

/-!
Verification of the request-authorization pipeline of the cloud-api-gateway
repository: route/rule matching, the credential-introspection cache, the
role-decision engine, and the auth/RBAC middleware chain, embedded shallowly
from the Go sources (internal/config, internal/auth/keycloak.go,
internal/middleware, internal/router, cmd/gateway/main.go).

Machine integers (int64 Unix timestamps, durations) are modelled as Int;
Go maps are modelled as association lists; the external introspection
authority and the HTTP/JSON layer are modelled as an oracle value
(`AuthorityReply`) describing the four outcomes the client code branches on.
-/

namespace Gateway

/-- Embeds config.RouteRule (internal/config/config.go): methods, the
optional require_auth flag (nil defaults to true), required roles and the
ALL/ANY role-combination flag. -/
structure RouteRule where
  methods : List String
  requireAuth : Option Bool
  requiredRoles : List String
  requireAllRoles : Bool
deriving DecidableEq, Repr

/-- Embeds (r *RouteRule).RequiresAuth: defaults to true when require_auth
is unspecified. -/
def RouteRule.RequiresAuth (r : RouteRule) : Bool :=
  match r.requireAuth with
  | none => true
  | some b => b

/-- Embeds config.RouteConfig as the route matcher consumes it: the compiled
path pattern is abstracted as the Boolean path-matching function that
CompiledPattern.MatchString denotes, together with the route's rules. -/
structure RouteConfig where
  name : String
  matchPath : String → Bool
  rules : List RouteRule

/-- Embeds auth.RealmAccess (internal/auth/keycloak.go). -/
structure RealmAccess where
  roles : List String
deriving DecidableEq, Repr

/-- Embeds auth.IntrospectionResponse; ResourceAccess, a Go map, is an
association list whose order stands for the map's iteration order. -/
structure IntrospectionResponse where
  active : Bool
  realmAccess : RealmAccess
  resourceAccess : List (String × RealmAccess)
  username : String
  clientID : String
  exp : Int
deriving DecidableEq, Repr

/-- One step of building the deduplicating role set of GetAllRoles: the Go
code inserts into a map[string]bool; here a first-occurrence-ordered list
stands for that set. -/
def insertRole (seen : List String) (r : String) : List String :=
  if r ∈ seen then seen else seen ++ [r]

/-- Embeds (ir *IntrospectionResponse).GetAllRoles: realm roles, then every
resource access entry's roles, collected into a deduplicating set. -/
def IntrospectionResponse.GetAllRoles (ir : IntrospectionResponse) : List String :=
  let s := ir.realmAccess.roles.foldl insertRole []
  ir.resourceAccess.foldl (fun acc p => p.2.roles.foldl insertRole acc) s

/-- Embeds (m *RBACMiddleware).checkRoles (internal/middleware/rbac.go):
empty required set passes; requireAll demands every required role, else at
least one. -/
def checkRoles (userRoles requiredRoles : List String) (requireAll : Bool) : Bool :=
  if requiredRoles.length = 0 then
    true
  else if requireAll then
    requiredRoles.all (fun req => userRoles.contains req)
  else
    requiredRoles.any (fun req => userRoles.contains req)

/-- Outcome of a handler in the middleware chain: either the request reaches
the reverse proxy, or http.Error wrote a status and a body (http.Error
appends a newline to its message). -/
inductive GatewayResponse where
  | forwarded
  | error (status : Nat) (body : String)
deriving DecidableEq, Repr

/-- Embeds (m *RBACMiddleware).Handler of the rules-based RBAC middleware:
401 without claims, OR across rules via checkRoles, else 403. -/
def rbacHandler (rules : List RouteRule) (claims : Option IntrospectionResponse)
    (next : GatewayResponse) : GatewayResponse :=
  match claims with
  | none => .error 401 "Authentication required\n"
  | some c =>
    if rules.any (fun rule => checkRoles c.GetAllRoles rule.requiredRoles rule.requireAllRoles) then
      next
    else
      .error 403 "Insufficient permissions\n"

/-- Go strings.SplitN(s, " ", 2) on the character list: split at the first
space when there is one. -/
def splitFirstSpace : List Char → Option (List Char × List Char)
  | [] => none
  | c :: rest =>
    if c = ' ' then some ([], rest)
    else (splitFirstSpace rest).map (fun p => (c :: p.1, p.2))

/-- Embeds extractToken (internal/middleware/auth.go): empty header yields
no token; SplitN(header, " ", 2) must give two parts with first part
"bearer" case-insensitively; the token is the second part. -/
def extractToken (authHeader : String) : String :=
  if authHeader = "" then ""
  else
    match splitFirstSpace authHeader.data with
    | none => ""
    | some (p0, p1) =>
      if p0.map Char.toLower = "bearer".data then String.mk p1 else ""

/-- Embeds (m *AuthMiddleware).Handler: 401 for a missing token, introspect
otherwise, 401 surfacing the error text on failure, 401 for an inactive
token, else run the next handler with the claims in context. The Bool
records whether the introspection client was invoked. -/
def authHandler (introspect : String → Except String IntrospectionResponse)
    (next : IntrospectionResponse → GatewayResponse) (authHeader : String) :
    GatewayResponse × Bool :=
  let token := extractToken authHeader
  if token = "" then
    (.error 401 "Missing or invalid Authorization header\n", false)
  else
    match introspect token with
    | .error e => (.error 401 ("Token validation failed: " ++ e ++ "\n"), true)
    | .ok res =>
      if res.active then (next res, true)
      else (.error 401 "Token is not active\n", true)

/-- Embeds splitRulesByAuth (cmd/gateway/main.go): rules that require
authentication go to the protected list, the rest to the public list,
preserving order. -/
def splitRulesByAuth : List RouteRule → List RouteRule × List RouteRule
  | [] => ([], [])
  | r :: rest =>
    let (pub, prot) := splitRulesByAuth rest
    if r.RequiresAuth then (pub, r :: prot) else (r :: pub, prot)

/-- Go strings.ToUpper on the character list (HTTP methods are ASCII). -/
def goToUpper (s : String) : String :=
  String.mk (s.data.map Char.toUpper)

/-- A rule's method filter for a request method already normalized to upper
case, as rule methods are upper-cased by validateAndCompile at load time. -/
def ruleMethodMatches (method : String) (rule : RouteRule) : Bool :=
  rule.methods.contains method

/-- Modelled from the spec: the loop body of the rules-aware MatchRoute of
internal/router/router.go, whose current two-value form is absent from the
sources (only its tests in router_test.go and its caller in main.go appear);
per spec section 4.2 it returns the first route, in configuration order,
whose compiled pattern matches the path and that keeps at least one rule
after filtering the rules by the request method, together with that filtered
rule subset in original order. -/
def matchRouteLoop (path method : String) : List RouteConfig →
    Option (RouteConfig × List RouteRule)
  | [] => none
  | route :: rest =>
    if route.matchPath path then
      let mrules := route.rules.filter (ruleMethodMatches method)
      if mrules.isEmpty then matchRouteLoop path method rest
      else some (route, mrules)
    else matchRouteLoop path method rest

/-- Modelled from the spec: (r *Router).MatchRoute in its current two-value
form (see matchRouteLoop); the request method is upper-cased first, as in
the router source. -/
def MatchRoute (routes : List RouteConfig) (path method : String) :
    Option (RouteConfig × List RouteRule) :=
  matchRouteLoop path (goToUpper method) routes

/-- Embeds the per-request handler of cmd/gateway/main.go: 404 when no route
matches, 500 when the proxy for the route cannot be built (proxyOk models
proxy.NewProxy succeeding), a bare proxy chain when some matching rule is
public, and the auth + RBAC chain otherwise. The Bool records whether the
introspection client was invoked. -/
def gatewayHandle (routes : List RouteConfig) (proxyOk : Bool)
    (introspect : String → Except String IntrospectionResponse)
    (path method authHeader : String) : GatewayResponse × Bool :=
  match MatchRoute routes path method with
  | none => (.error 404 "Route not found\n", false)
  | some (_route, matchingRules) =>
    if proxyOk then
      let (publicRules, protectedRules) := splitRulesByAuth matchingRules
      if publicRules.length = 0 then
        authHandler introspect
          (fun claims => rbacHandler protectedRules (some claims) .forwarded) authHeader
      else
        (.forwarded, false)
    else
      (.error 500 "Internal server error\n", false)

/-- Embeds auth.CachedToken: an introspection result with its absolute
expiry instant. -/
structure CachedToken where
  result : IntrospectionResponse
  expiresAt : Int
deriving DecidableEq, Repr

/-- The token cache (a sync.Map in the source) as an association list. -/
abbrev Cache := List (String × CachedToken)

/-- sync.Map Load. -/
def cacheLookup (cache : Cache) (k : String) : Option CachedToken :=
  match cache with
  | [] => none
  | (k', v) :: rest => if k' = k then some v else cacheLookup rest k

/-- sync.Map Delete. -/
def cacheDelete (cache : Cache) (k : String) : Cache :=
  match cache with
  | [] => []
  | (k', v) :: rest => if k' = k then cacheDelete rest k else (k', v) :: cacheDelete rest k

/-- sync.Map Store: replace any entry under the key. -/
def cacheStore (cache : Cache) (k : String) (v : CachedToken) : Cache :=
  (k, v) :: cacheDelete cache k

/-- The external introspection authority's reply, as the four cases the
client code in IntrospectToken branches on: transport failure of
httpClient.Do, a non-200 HTTP status with its raw body, a 200 whose body the
JSON decoder rejects, and a 200 with a decoded result. -/
inductive AuthorityReply where
  | transportErr (msg : String)
  | status (code : Nat) (rawBody : String)
  | okParseErr (msg : String)
  | okResult (result : IntrospectionResponse)
deriving DecidableEq, Repr

/-- Embeds the post-lookup portion of (c *Client).IntrospectToken
(internal/auth/keycloak.go): the authority is called (Bool true); errors
propagate with their formatted messages; an active result is stored, when
caching is enabled, with expiry now + TTL capped by a positive token exp. -/
def introspectCall (cacheEnabled : Bool) (cacheTTL : Int) (cache : Cache)
    (now : Int) (reply : AuthorityReply) (token : String) :
    Except String IntrospectionResponse × Cache × Bool :=
  match reply with
  | .transportErr m => (.error ("introspection request failed: " ++ m), cache, true)
  | .status code rawBody =>
    (.error ("introspection failed with status " ++ toString code ++ ": " ++ rawBody),
      cache, true)
  | .okParseErr m => (.error ("failed to parse introspection response: " ++ m), cache, true)
  | .okResult result =>
    let newCache :=
      if cacheEnabled && result.active then
        let expiresAt := now + cacheTTL
        let expiresAt := if 0 < result.exp && result.exp < expiresAt then result.exp else expiresAt
        cacheStore cache token ⟨result, expiresAt⟩
      else cache
    (.ok result, newCache, true)

/-- Embeds (c *Client).IntrospectToken: with caching enabled, a live cache
entry is returned without a call (Bool false), an expired one is deleted
before the fresh call; otherwise the authority is always called. -/
def IntrospectToken (cacheEnabled : Bool) (cacheTTL : Int) (cache : Cache)
    (now : Int) (reply : AuthorityReply) (token : String) :
    Except String IntrospectionResponse × Cache × Bool :=
  if cacheEnabled then
    match cacheLookup cache token with
    | some entry =>
      if now < entry.expiresAt then (.ok entry.result, cache, false)
      else introspectCall cacheEnabled cacheTTL (cacheDelete cache token) now reply token
    | none => introspectCall cacheEnabled cacheTTL cache now reply token
  else
    introspectCall cacheEnabled cacheTTL cache now reply token

/-- The cache state after only the lookup phase of IntrospectToken: the
expired entry found under the token, if any, has been deleted. -/
def lookupPhase (cacheEnabled : Bool) (cache : Cache) (now : Int) (token : String) : Cache :=
  if cacheEnabled then
    match cacheLookup cache token with
    | some entry => if now < entry.expiresAt then cache else cacheDelete cache token
    | none => cache
  else cache

/-! Shared lemmas about the embedded operations. -/

theorem splitRulesByAuth_fst (rules : List RouteRule) :
    (splitRulesByAuth rules).1 = rules.filter (fun r => !r.RequiresAuth) := by
  induction rules with
  | nil => rfl
  | cons r rest ih =>
    simp only [splitRulesByAuth, List.filter_cons]
    cases hr : r.RequiresAuth <;> simp [hr, ih]

theorem splitRulesByAuth_snd (rules : List RouteRule) :
    (splitRulesByAuth rules).2 = rules.filter (fun r => r.RequiresAuth) := by
  induction rules with
  | nil => rfl
  | cons r rest ih =>
    simp only [splitRulesByAuth, List.filter_cons]
    cases hr : r.RequiresAuth <;> simp [hr, ih]

theorem introspectCall_called (cacheEnabled : Bool) (cacheTTL : Int) (cache : Cache)
    (now : Int) (reply : AuthorityReply) (token : String) :
    (introspectCall cacheEnabled cacheTTL cache now reply token).2.2 = true := by
  cases reply <;> rfl

/-- C4: role satisfaction in checkRoles — an empty required set passes
regardless of mode; ALL mode passes iff the user's role set contains every
required role; ANY mode (on a non-empty required set, the empty one being
settled by the first clause) passes iff some required role is held. -/
theorem checkRoles_role_satisfaction (userRoles requiredRoles : List String) :
    (requiredRoles = [] → ∀ mode, checkRoles userRoles requiredRoles mode = true) ∧
    (checkRoles userRoles requiredRoles true = true ↔
      ∀ r ∈ requiredRoles, r ∈ userRoles) ∧
    (requiredRoles ≠ [] →
      (checkRoles userRoles requiredRoles false = true ↔
        ∃ r ∈ requiredRoles, r ∈ userRoles)) := by
  refine ⟨fun h mode => by simp [checkRoles, h], ?_, fun h => ?_⟩
  · cases requiredRoles with
    | nil => simp [checkRoles]
    | cons a l => simp [checkRoles]
  · cases requiredRoles with
    | nil => exact absurd rfl h
    | cons a l => simp [checkRoles]

/-- Witness for checkRoles_role_satisfaction at concrete inputs: a subject
holding only "editor" with required roles "viewer","editor" in ANY mode. -/
theorem checkRoles_role_satisfaction_witness :
    checkRoles ["editor"] ["viewer", "editor"] false = true :=
  ((checkRoles_role_satisfaction ["editor"] ["viewer", "editor"]).2.2
    (by decide)).mpr ⟨"editor", by decide, by decide⟩

/-- C10: the rules-based RBAC middleware is fail-closed — with an empty rule
list it answers 403 to every request carrying claims, and it answers 401
whenever no claims are in the request context, whatever the rules. -/
theorem rbacHandler_fail_closed (claims : IntrospectionResponse)
    (rules : List RouteRule) (next : GatewayResponse) :
    rbacHandler [] (some claims) next = .error 403 "Insufficient permissions\n" ∧
    rbacHandler rules none next = .error 401 "Authentication required\n" :=
  ⟨rfl, rfl⟩

/-- C2: whenever the matched rule set contains a rule that does not require
authentication, the gateway handler forwards the request to the proxy and
never invokes the introspection client, whatever the credential header and
whatever the other matched rules require. -/
theorem public_rule_bypasses_auth (routes : List RouteConfig)
    (introspect : String → Except String IntrospectionResponse)
    (path method authHeader : String) (route : RouteConfig) (mrules : List RouteRule)
    (hmatch : MatchRoute routes path method = some (route, mrules))
    (hpub : ∃ rule ∈ mrules, rule.RequiresAuth = false) :
    gatewayHandle routes true introspect path method authHeader
      = (.forwarded, false) := by
  have hne : (splitRulesByAuth mrules).1 ≠ [] := by
    rw [splitRulesByAuth_fst]
    obtain ⟨rule, hmem, hr⟩ := hpub
    intro hemp
    have := (List.filter_eq_nil_iff.mp hemp) rule hmem
    simp [hr] at this
  rcases hsp : splitRulesByAuth mrules with ⟨pub, prot⟩
  have hlen : pub.length ≠ 0 := by
    rw [hsp] at hne
    simpa [List.length_eq_zero] using hne
  simp [gatewayHandle, hmatch, hsp, hlen]

/-- Witness for public_rule_bypasses_auth: a health route whose single GET
rule is public, hit by an unauthenticated GET /health. -/
theorem public_rule_bypasses_auth_witness :
    gatewayHandle [⟨"health", fun p => p = "/health",
        [⟨["GET"], some false, [], false⟩]⟩] true
      (fun _ => .error "unreachable") "/health" "get" "" = (.forwarded, false) :=
  public_rule_bypasses_auth _ _ _ _ _
    ⟨"health", fun p => p = "/health", [⟨["GET"], some false, [], false⟩]⟩
    [⟨["GET"], some false, [], false⟩] rfl
    ⟨⟨["GET"], some false, [], false⟩, by decide, rfl⟩

/-- C3: a lookup strictly after a cache entry's expiry never serves the
entry — the whole call behaves as the fresh-call phase run on the cache with
the entry deleted, and the external authority is invoked. -/
theorem expired_entry_never_served (cacheTTL : Int) (cache : Cache) (now : Int)
    (reply : AuthorityReply) (token : String) (entry : CachedToken)
    (hl : cacheLookup cache token = some entry) (he : entry.expiresAt < now) :
    IntrospectToken true cacheTTL cache now reply token
      = introspectCall true cacheTTL (cacheDelete cache token) now reply token ∧
    (IntrospectToken true cacheTTL cache now reply token).2.2 = true := by
  have hlt : ¬ now < entry.expiresAt := by omega
  constructor
  · simp [IntrospectToken, hl, hlt]
  · simp [IntrospectToken, hl, hlt, introspectCall_called]

/-- Witness for expired_entry_never_served: an entry that expired at instant
5, looked up at instant 10 while the authority reports an inactive token. -/
theorem expired_entry_never_served_witness :
    IntrospectToken true 60 [("t", ⟨⟨true, ⟨[]⟩, [], "u", "c", 0⟩, 5⟩)] 10
        (.okResult ⟨false, ⟨[]⟩, [], "u", "c", 0⟩) "t"
      = introspectCall true 60 [] 10 (.okResult ⟨false, ⟨[]⟩, [], "u", "c", 0⟩) "t" ∧
    (IntrospectToken true 60 [("t", ⟨⟨true, ⟨[]⟩, [], "u", "c", 0⟩, 5⟩)] 10
        (.okResult ⟨false, ⟨[]⟩, [], "u", "c", 0⟩) "t").2.2 = true :=
  expired_entry_never_served 60 [("t", ⟨⟨true, ⟨[]⟩, [], "u", "c", 0⟩, 5⟩)] 10
    (.okResult ⟨false, ⟨[]⟩, [], "u", "c", 0⟩) "t" ⟨⟨true, ⟨[]⟩, [], "u", "c", 0⟩, 5⟩
    (by decide) (by decide)

theorem cacheLookup_cacheStore (cache : Cache) (token : String) (v : CachedToken) :
    cacheLookup (cacheStore cache token v) token = some v := by
  simp [cacheStore, cacheLookup]

/-- C5: when the introspection call happens (no live cache entry) and its
active result is stored at instant now, the stored entry's absolute expiry
is min(now + TTL, token exp) when the token carries a positive exp, and
now + TTL otherwise. -/
theorem stored_expiry_is_min (cacheTTL : Int) (cache : Cache) (now : Int)
    (res : IntrospectionResponse) (token : String)
    (hnotlive : ∀ e, cacheLookup cache token = some e → e.expiresAt ≤ now)
    (ha : res.active = true) :
    cacheLookup (IntrospectToken true cacheTTL cache now (.okResult res) token).2.1 token
      = some ⟨res, if 0 < res.exp then min (now + cacheTTL) res.exp else now + cacheTTL⟩ := by
  have hstore : ∀ c : Cache,
      cacheLookup (introspectCall true cacheTTL c now (.okResult res) token).2.1 token
        = some ⟨res, if 0 < res.exp then min (now + cacheTTL) res.exp else now + cacheTTL⟩ := by
    intro c
    simp only [introspectCall, ha, Bool.and_self, if_true, cacheLookup_cacheStore,
      Option.some.injEq, CachedToken.mk.injEq, true_and]
    by_cases h1 : 0 < res.exp <;> by_cases h2 : res.exp < now + cacheTTL <;>
      simp [h1, h2, min_def] <;> omega
  unfold IntrospectToken
  cases hl : cacheLookup cache token with
  | none => simpa using hstore cache
  | some entry =>
    have hle : ¬ now < entry.expiresAt := by
      have := hnotlive entry hl
      omega
    simpa [hle] using hstore (cacheDelete cache token)

/-- Witness for stored_expiry_is_min, realizing the spec's scenario: the
authority returns exp = now + 10 (now = 1000) while the configured TTL is
60, and the stored entry expires at 1010, not 1060. -/
theorem stored_expiry_is_min_witness :
    cacheLookup (IntrospectToken true 60 [] 1000
        (.okResult ⟨true, ⟨[]⟩, [], "u", "c", 1010⟩) "t").2.1 "t"
      = some ⟨⟨true, ⟨[]⟩, [], "u", "c", 1010⟩,
          if 0 < (1010 : Int) then min (1000 + 60) 1010 else 1000 + 60⟩ :=
  stored_expiry_is_min 60 [] 1000 ⟨true, ⟨[]⟩, [], "u", "c", 1010⟩ "t"
    (fun e he => by simp [cacheLookup] at he) rfl

theorem mem_cacheDelete (cache : Cache) (t k : String) (e : CachedToken)
    (h : (k, e) ∈ cacheDelete cache t) : (k, e) ∈ cache := by
  induction cache with
  | nil => simp [cacheDelete] at h
  | cons p rest ih =>
    obtain ⟨k', v⟩ := p
    by_cases hk : k' = t
    · simp only [cacheDelete, if_pos hk] at h
      exact List.mem_cons_of_mem _ (ih h)
    · simp only [cacheDelete, if_neg hk, List.mem_cons] at h
      rcases h with h | h
      · exact h ▸ List.mem_cons_self _ _
      · exact List.mem_cons_of_mem _ (ih h)

theorem mem_lookupPhase (enabled : Bool) (cache : Cache) (now : Int) (t k : String)
    (e : CachedToken) (h : (k, e) ∈ lookupPhase enabled cache now t) : (k, e) ∈ cache := by
  unfold lookupPhase at h
  cases enabled with
  | false => simp at h; exact h
  | true =>
    simp only [if_true] at h
    cases hl : cacheLookup cache t with
    | none => rw [hl] at h; exact h
    | some entry =>
      simp only [hl] at h
      by_cases ht : now < entry.expiresAt
      · rw [if_pos ht] at h; exact h
      · rw [if_neg ht] at h; exact mem_cacheDelete cache t k e h

/-- C6 counterexample: with caching enabled, a cache holding an entry for
"t" that expired at instant 5, and the authority failing with HTTP 500 at
instant 10, the error propagates but the cache is NOT left unchanged — the
expired entry has been removed — contradicting the claim that every error
outcome leaves the cache unchanged. -/
theorem error_outcome_changes_cache_counterexample :
    (IntrospectToken true 60 [("t", ⟨⟨true, ⟨[]⟩, [], "u", "c", 0⟩, 5⟩)] 10
        (.status 500 "boom") "t").1
      = .error "introspection failed with status 500: boom" ∧
    (IntrospectToken true 60 [("t", ⟨⟨true, ⟨[]⟩, [], "u", "c", 0⟩, 5⟩)] 10
        (.status 500 "boom") "t").2.1
      ≠ [("t", ⟨⟨true, ⟨[]⟩, [], "u", "c", 0⟩, 5⟩)] := by
  constructor
  · rfl
  · decide

/-- C6 amended: the cache gains an entry only when caching is enabled, the
call succeeds and the result is active; with an inactive result or any error
outcome the outcome propagates to the caller and the cache equals its state
after the lookup phase alone (unchanged up to the lazy removal of an expired
entry found under the credential); consequently every entry ever present in
the cache holds an active result. -/
theorem cache_holds_only_active (enabled : Bool) (cacheTTL : Int) (cache : Cache)
    (now : Int) (reply : AuthorityReply) (token : String) :
    (enabled = false → (IntrospectToken enabled cacheTTL cache now reply token).2.1 = cache) ∧
    ((∀ res, reply = .okResult res → res.active = false) →
      (IntrospectToken enabled cacheTTL cache now reply token).2.1
        = lookupPhase enabled cache now token) ∧
    ((∀ k e, (k, e) ∈ cache → e.result.active = true) →
      ∀ k e, (k, e) ∈ (IntrospectToken enabled cacheTTL cache now reply token).2.1 →
        e.result.active = true) := by
  refine ⟨fun hd => ?_, fun hia => ?_, fun hinv k e hmem => ?_⟩
  · subst hd
    simp only [IntrospectToken, if_false, Bool.false_eq_true]
    cases reply with
    | transportErr m => rfl
    | status c b => rfl
    | okParseErr m => rfl
    | okResult res => simp [introspectCall]
  · have hcall : ∀ c : Cache,
        (introspectCall enabled cacheTTL c now reply token).2.1 = c := by
      intro c
      cases reply with
      | transportErr m => rfl
      | status cd b => rfl
      | okParseErr m => rfl
      | okResult res => simp [introspectCall, hia res rfl]
    unfold IntrospectToken lookupPhase
    cases enabled with
    | false => simpa using hcall cache
    | true =>
      simp only [if_true]
      cases hl : cacheLookup cache token with
      | none => exact hcall cache
      | some entry =>
        by_cases ht : now < entry.expiresAt
        · simp [ht]
        · simp [ht, hcall (cacheDelete cache token)]
  · have hcall : ∀ c : Cache, (∀ k e, (k, e) ∈ c → e.result.active = true) →
        (k, e) ∈ (introspectCall enabled cacheTTL c now reply token).2.1 →
        e.result.active = true := by
      intro c hc hm
      cases reply with
      | transportErr m => exact hc k e hm
      | status cd b => exact hc k e hm
      | okParseErr m => exact hc k e hm
      | okResult res =>
        simp only [introspectCall] at hm
        by_cases hact : (enabled && res.active) = true
        · rw [if_pos hact] at hm
          simp only [cacheStore, List.mem_cons] at hm
          rcases hm with hm | hm
          · cases hm
            exact (Bool.and_elim_right hact)
          · exact hc k e (mem_cacheDelete c token k e hm)
        · rw [if_neg hact] at hm
          exact hc k e hm
    unfold IntrospectToken at hmem
    cases enabled with
    | false => exact hcall cache hinv (by simpa using hmem)
    | true =>
      simp only [if_true] at hmem
      cases hl : cacheLookup cache token with
      | none =>
        rw [hl] at hmem
        exact hcall cache hinv hmem
      | some entry =>
        simp only [hl] at hmem
        by_cases ht : now < entry.expiresAt
        · rw [if_pos ht] at hmem
          exact hinv k e hmem
        · rw [if_neg ht] at hmem
          refine hcall (cacheDelete cache token) ?_ hmem
          exact fun k' e' hm' => hinv k' e' (mem_cacheDelete cache token k' e' hm')

/-- Witness for cache_holds_only_active: caching disabled leaves a singleton
cache untouched on a transport error, and the invariant clause applied to an
active singleton cache. -/
theorem cache_holds_only_active_witness :
    (IntrospectToken false 60 [("t", ⟨⟨true, ⟨[]⟩, [], "u", "c", 0⟩, 5⟩)] 10
        (.transportErr "timeout") "t").2.1
      = [("t", ⟨⟨true, ⟨[]⟩, [], "u", "c", 0⟩, 5⟩)] :=
  (cache_holds_only_active false 60 [("t", ⟨⟨true, ⟨[]⟩, [], "u", "c", 0⟩, 5⟩)] 10
    (.transportErr "timeout") "t").1 rfl

theorem mem_foldl_insertRole (l acc : List String) (x : String) :
    x ∈ l.foldl insertRole acc ↔ x ∈ acc ∨ x ∈ l := by
  induction l generalizing acc with
  | nil => simp
  | cons a rest ih =>
    simp only [List.foldl_cons, ih, insertRole, List.mem_cons]
    by_cases ha : a ∈ acc
    · simp only [if_pos ha]
      constructor
      · rintro (h | h)
        · exact Or.inl h
        · exact Or.inr (Or.inr h)
      · rintro (h | h | h)
        · exact Or.inl h
        · exact Or.inl (h ▸ ha)
        · exact Or.inr h
    · simp only [if_neg ha, List.mem_append, List.mem_singleton]
      tauto

theorem nodup_foldl_insertRole (l acc : List String) (h : acc.Nodup) :
    (l.foldl insertRole acc).Nodup := by
  induction l generalizing acc with
  | nil => exact h
  | cons a rest ih =>
    simp only [List.foldl_cons, insertRole]
    by_cases ha : a ∈ acc
    · rw [if_pos ha]; exact ih acc h
    · rw [if_neg ha]
      refine ih _ ?_
      simp [List.nodup_append, h, ha]

theorem mem_foldl_resource (ras : List (String × RealmAccess)) (acc : List String)
    (x : String) :
    x ∈ ras.foldl (fun acc p => p.2.roles.foldl insertRole acc) acc ↔
      x ∈ acc ∨ ∃ p ∈ ras, x ∈ p.2.roles := by
  induction ras generalizing acc with
  | nil => simp
  | cons p rest ih =>
    simp only [List.foldl_cons, ih, mem_foldl_insertRole, List.mem_cons]
    constructor
    · rintro ((h | h) | ⟨q, hq, hx⟩)
      · exact Or.inl h
      · exact Or.inr ⟨p, Or.inl rfl, h⟩
      · exact Or.inr ⟨q, Or.inr hq, hx⟩
    · rintro (h | ⟨q, hq | hq, hx⟩)
      · exact Or.inl (Or.inl h)
      · exact Or.inl (Or.inr (hq ▸ hx))
      · exact Or.inr ⟨q, hq, hx⟩

theorem nodup_foldl_resource (ras : List (String × RealmAccess)) (acc : List String)
    (h : acc.Nodup) :
    (ras.foldl (fun acc p => p.2.roles.foldl insertRole acc) acc).Nodup := by
  induction ras generalizing acc with
  | nil => exact h
  | cons p rest ih => exact ih _ (nodup_foldl_insertRole _ _ h)

/-- C7: the extracted role collection is exactly the deduplicated union of
the realm role list and all resource-access role lists — no duplicates and
no other names, with no particular order promised. -/
theorem GetAllRoles_dedup_union (ir : IntrospectionResponse) :
    ir.GetAllRoles.Nodup ∧
    ∀ r, r ∈ ir.GetAllRoles ↔
      (r ∈ ir.realmAccess.roles ∨ ∃ p ∈ ir.resourceAccess, r ∈ p.2.roles) := by
  constructor
  · exact nodup_foldl_resource _ _ (nodup_foldl_insertRole _ _ List.nodup_nil)
  · intro r
    simp only [IntrospectionResponse.GetAllRoles, mem_foldl_resource,
      mem_foldl_insertRole, List.not_mem_nil, false_or]

/-- Witness for GetAllRoles_dedup_union: a role present both in the realm
list and a resource list is in the extracted collection. -/
theorem GetAllRoles_dedup_union_witness :
    "admin" ∈ (⟨true, ⟨["admin"]⟩, [("app", ⟨["admin", "editor"]⟩)], "u", "c", 0⟩ :
        IntrospectionResponse).GetAllRoles :=
  ((GetAllRoles_dedup_union
    ⟨true, ⟨["admin"]⟩, [("app", ⟨["admin", "editor"]⟩)], "u", "c", 0⟩).2 "admin").mpr
    (Or.inl (by decide))

theorem splitFirstSpace_some_of_shape (a b : List Char) (hna : ' ' ∉ a) :
    splitFirstSpace (a ++ ' ' :: b) = some (a, b) := by
  induction a with
  | nil => rfl
  | cons c a' ih =>
    have hc : ¬ c = ' ' := fun h => hna (h ▸ List.mem_cons_self _ _)
    have hna' : ' ' ∉ a' := fun h => hna (List.mem_cons_of_mem _ h)
    show (if c = ' ' then some ([], a' ++ ' ' :: b)
      else (splitFirstSpace (a' ++ ' ' :: b)).map (fun p => (c :: p.1, p.2)))
        = some (c :: a', b)
    rw [if_neg hc, ih hna']
    rfl

theorem shape_of_splitFirstSpace_some (l a b : List Char)
    (h : splitFirstSpace l = some (a, b)) : l = a ++ ' ' :: b ∧ ' ' ∉ a := by
  induction l generalizing a b with
  | nil => simp [splitFirstSpace] at h
  | cons c rest ih =>
    by_cases hc : c = ' '
    · simp only [splitFirstSpace, if_pos hc, Option.some.injEq, Prod.mk.injEq] at h
      subst hc
      obtain ⟨ha, hb⟩ := h
      subst ha; subst hb
      exact ⟨rfl, List.not_mem_nil _⟩
    · simp only [splitFirstSpace, if_neg hc, Option.map_eq_some'] at h
      obtain ⟨⟨a', b'⟩, hsp, hab⟩ := h
      obtain ⟨ha, hb⟩ := Prod.mk.injEq .. ▸ hab
      obtain ⟨hl, hna'⟩ := ih a' b' hsp
      subst ha; subst hb
      refine ⟨by rw [hl]; rfl, ?_⟩
      intro hmem
      rcases List.mem_cons.mp hmem with h | h
      · exact hc h.symm
      · exact hna' h

/-- C9: the auth middleware extracts a credential exactly when the
Authorization header splits at its first space into a scheme equal to
"bearer" case-insensitively and a remainder, the remainder being the
credential; for every other header shape no credential is extracted and the
handler answers 401 without invoking the introspection client. -/
theorem extractToken_bearer_shape (hdr : String) :
    (∀ p0 p1 : List Char, hdr.data = p0 ++ ' ' :: p1 → ' ' ∉ p0 →
      p0.map Char.toLower = "bearer".data → extractToken hdr = String.mk p1) ∧
    ((¬ ∃ p0 p1 : List Char, hdr.data = p0 ++ ' ' :: p1 ∧ ' ' ∉ p0 ∧
        p0.map Char.toLower = "bearer".data) →
      extractToken hdr = "" ∧
      ∀ (introspect : String → Except String IntrospectionResponse)
        (next : IntrospectionResponse → GatewayResponse),
        authHandler introspect next hdr
          = (.error 401 "Missing or invalid Authorization header\n", false)) := by
  constructor
  · intro p0 p1 hsplit hns hlow
    have hne : ¬ hdr = "" := by
      intro h
      rw [h] at hsplit
      exact absurd hsplit.symm (List.append_ne_nil_of_right_ne_nil _ (by simp))
    rw [extractToken, if_neg hne, hsplit, splitFirstSpace_some_of_shape p0 p1 hns]
    simp only [hlow, if_true]
  · intro hshape
    have hres : extractToken hdr = "" := by
      by_cases hne : hdr = ""
      · rw [extractToken, if_pos hne]
      · rw [extractToken, if_neg hne]
        cases hsp : splitFirstSpace hdr.data with
        | none => rfl
        | some p =>
          obtain ⟨p0, p1⟩ := p
          obtain ⟨hl, hns⟩ := shape_of_splitFirstSpace_some hdr.data p0 p1 hsp
          have hnb : ¬ p0.map Char.toLower = "bearer".data := fun hlow =>
            hshape ⟨p0, p1, hl, hns, hlow⟩
          simp only [hnb, if_false]
    exact ⟨hres, fun introspect next => by simp [authHandler, hres]⟩

/-- Witness for extractToken_bearer_shape at the headers "Bearer tok"
(well-shaped, credential "tok") and "Basic x" (wrong scheme: no extraction
and 401 with no introspection). -/
theorem extractToken_bearer_shape_witness :
    extractToken "Bearer tok" = String.mk "tok".data ∧
    authHandler (fun _ => .error "unreachable")
        (fun _ => .forwarded) "Basic x"
      = (.error 401 "Missing or invalid Authorization header\n", false) := by
  have hnot : ¬ ∃ p0 p1 : List Char, "Basic x".data = p0 ++ ' ' :: p1 ∧ ' ' ∉ p0 ∧
      p0.map Char.toLower = "bearer".data := by
    rintro ⟨p0, p1, h1, h2, h3⟩
    have h4 : splitFirstSpace "Basic x".data = some (p0, p1) :=
      h1 ▸ splitFirstSpace_some_of_shape p0 p1 h2
    have h5 : splitFirstSpace "Basic x".data = some ("Basic".data, "x".data) := by decide
    rw [h5, Option.some.injEq, Prod.mk.injEq] at h4
    rw [← h4.1] at h3
    exact absurd h3 (by decide)
  exact ⟨(extractToken_bearer_shape "Bearer tok").1 "Bearer".data "tok".data
      (by decide) (by decide) (by decide),
    ((extractToken_bearer_shape "Basic x").2 hnot).2 _ _⟩

/-- C8 counterexample: with the introspection authority answering HTTP 401
and raw body "invalid client", the gateway's 401 response body embeds both
that status and that raw body verbatim — the claim that the response never
contains the authority's raw error body or status fails on this request. -/
theorem authority_error_leaks_counterexample :
    gatewayHandle
        [⟨"users", fun p => p = "/api/users", [⟨["GET"], none, ["admin"], true⟩]⟩] true
        (fun tok => (IntrospectToken false 0 [] 0 (.status 401 "invalid client") tok).1)
        "/api/users" "GET" "Bearer tok"
      = (.error 401
          "Token validation failed: introspection failed with status 401: invalid client\n",
          true) ∧
    ("Token validation failed: introspection failed with status 401: invalid client\n").data
      = ("Token validation failed: introspection failed with status 401: ").data
          ++ ("invalid client").data ++ ("\n").data := by
  exact ⟨rfl, by decide⟩

/-- C8 amended: role-based denials, the missing-credential denial and the
inactive-token denial carry fixed bodies revealing no internal detail — in
particular never which required role was missing — but an introspection
failure's 401 surfaces the error text, which for a non-success authority
response embeds the authority's status code and raw body. -/
theorem error_detail_amended (rules : List RouteRule) (claims : IntrospectionResponse)
    (next : GatewayResponse) (introspect : String → Except String IntrospectionResponse)
    (nextA : IntrospectionResponse → GatewayResponse) (hdr : String) (e : String)
    (res : IntrospectionResponse) :
    (rbacHandler rules (some claims) next = next ∨
      rbacHandler rules (some claims) next = .error 403 "Insufficient permissions\n") ∧
    (extractToken hdr = "" →
      authHandler introspect nextA hdr
        = (.error 401 "Missing or invalid Authorization header\n", false)) ∧
    (extractToken hdr ≠ "" → introspect (extractToken hdr) = .error e →
      authHandler introspect nextA hdr
        = (.error 401 ("Token validation failed: " ++ e ++ "\n"), true)) ∧
    (extractToken hdr ≠ "" → introspect (extractToken hdr) = .ok res →
      res.active = false →
      authHandler introspect nextA hdr
        = (.error 401 "Token is not active\n", true)) := by
  refine ⟨?_, fun h0 => by simp [authHandler, h0], fun h0 herr => ?_,
    fun h0 hok hact => ?_⟩
  · unfold rbacHandler
    by_cases h : rules.any
        (fun rule => checkRoles claims.GetAllRoles rule.requiredRoles rule.requireAllRoles)
    · exact Or.inl (by simp [h])
    · exact Or.inr (by simp [h])
  · simp [authHandler, h0, herr]
  · simp [authHandler, h0, hok, hact]

/-- Witness for error_detail_amended: for the header "Bearer t", a transport
failure "boom" is surfaced in the 401 body, and an inactive introspection
result yields the fixed 401 body. -/
theorem error_detail_amended_witness :
    (authHandler (fun _ => .error "boom") (fun _ => .forwarded) "Bearer t"
      = (.error 401 ("Token validation failed: " ++ "boom" ++ "\n"), true)) ∧
    (authHandler (fun _ => .ok ⟨false, ⟨[]⟩, [], "u", "c", 0⟩)
        (fun _ => .forwarded) "Bearer t"
      = (.error 401 "Token is not active\n", true)) :=
  ⟨(error_detail_amended [] ⟨true, ⟨[]⟩, [], "u", "c", 0⟩ .forwarded
      (fun _ => .error "boom") (fun _ => .forwarded) "Bearer t" "boom"
      ⟨false, ⟨[]⟩, [], "u", "c", 0⟩).2.2.1 (by decide) rfl,
    (error_detail_amended [] ⟨true, ⟨[]⟩, [], "u", "c", 0⟩ .forwarded
      (fun _ => .ok ⟨false, ⟨[]⟩, [], "u", "c", 0⟩) (fun _ => .forwarded) "Bearer t" "e"
      ⟨false, ⟨[]⟩, [], "u", "c", 0⟩).2.2.2 (by decide) rfl rfl⟩

theorem matchRouteLoop_skip_pre (path M : String) (pre l : List RouteConfig)
    (hskip : ∀ q ∈ pre, q.matchPath path = false ∨
      q.rules.filter (ruleMethodMatches M) = []) :
    matchRouteLoop path M (pre ++ l) = matchRouteLoop path M l := by
  induction pre with
  | nil => rfl
  | cons q pre' ih =>
    have hq := hskip q (List.mem_cons_self _ _)
    have hrest : ∀ p ∈ pre', p.matchPath path = false ∨
        p.rules.filter (ruleMethodMatches M) = [] :=
      fun p hp => hskip p (List.mem_cons_of_mem _ hp)
    rcases hq with hq | hq
    · simp only [List.cons_append, matchRouteLoop, hq, Bool.false_eq_true, if_false]
      exact ih hrest
    · simp only [List.cons_append, matchRouteLoop, hq, List.isEmpty_nil, if_true]
      by_cases hm : q.matchPath path = true <;> simp [hm, ih hrest]

theorem matchRouteLoop_eq_none (path M : String) (routes : List RouteConfig) :
    matchRouteLoop path M routes = none ↔
      ∀ q ∈ routes, q.matchPath path = false ∨
        q.rules.filter (ruleMethodMatches M) = [] := by
  induction routes with
  | nil => simp [matchRouteLoop]
  | cons route rest ih =>
    cases hm : route.matchPath path with
    | false =>
      simp only [matchRouteLoop, hm, Bool.false_eq_true, if_false, ih,
        List.forall_mem_cons]
      simp [hm]
    | true =>
      cases hf : route.rules.filter (ruleMethodMatches M) with
      | nil =>
        simp only [matchRouteLoop, hm, if_true, hf, List.isEmpty_nil, ih,
          List.forall_mem_cons]
        simp [hm, hf]
      | cons a l =>
        simp only [matchRouteLoop, hm, if_true, hf, List.isEmpty_cons, if_false,
          List.forall_mem_cons]
        simp [hm, hf]

theorem matchRouteLoop_eq_some (path M : String) (routes : List RouteConfig)
    (r : RouteConfig) (rs : List RouteRule) :
    matchRouteLoop path M routes = some (r, rs) ↔
      ∃ pre post, routes = pre ++ r :: post ∧
        (∀ q ∈ pre, q.matchPath path = false ∨
          q.rules.filter (ruleMethodMatches M) = []) ∧
        r.matchPath path = true ∧
        rs = r.rules.filter (ruleMethodMatches M) ∧ rs ≠ [] := by
  constructor
  · intro h
    induction routes with
    | nil => exact absurd h (by simp [matchRouteLoop])
    | cons route rest ih =>
      cases hm : route.matchPath path with
      | false =>
        rw [matchRouteLoop, hm] at h
        simp only [Bool.false_eq_true, if_false] at h
        obtain ⟨pre, post, hdec, hskip, hr⟩ := ih h
        exact ⟨route :: pre, post, by rw [hdec]; rfl,
          List.forall_mem_cons.mpr ⟨Or.inl hm, hskip⟩, hr⟩
      | true =>
        rw [matchRouteLoop, hm] at h
        simp only [if_true] at h
        cases hf : route.rules.filter (ruleMethodMatches M) with
        | nil =>
          rw [hf] at h
          simp only [List.isEmpty_nil, if_true] at h
          obtain ⟨pre, post, hdec, hskip, hr⟩ := ih h
          exact ⟨route :: pre, post, by rw [hdec]; rfl,
            List.forall_mem_cons.mpr ⟨Or.inr hf, hskip⟩, hr⟩
        | cons a l =>
          rw [hf] at h
          simp only [List.isEmpty_cons, Bool.false_eq_true, if_false,
            Option.some.injEq, Prod.mk.injEq] at h
          obtain ⟨hr, hrs⟩ := h
          subst hr
          exact ⟨[], rest, rfl, by simp, hm, by rw [← hrs, hf], by rw [← hrs]; simp⟩
  · rintro ⟨pre, post, hdec, hskip, hm, hrs, hne⟩
    subst hdec
    rw [matchRouteLoop_skip_pre path M pre _ hskip, matchRouteLoop, hm]
    have hemp : rs.isEmpty = false := by
      cases rs with
      | nil => exact absurd rfl hne
      | cons a l => rfl
    simp only [if_true, ← hrs, hemp, Bool.false_eq_true, if_false]

/-- C1, modelled from the spec (the two-value MatchRoute is absent from the
sources; only its tests and caller appear): the matcher returns the first
configured route whose pattern matches the path and at least one of whose
rules' method sets contains the upper-cased request method, paired with
exactly the method-matching subset of that route's rules in original order;
it returns nothing iff every route fails the path match or keeps no rule for
the method — in particular a path match whose rules all reject the method
yields no route. -/
theorem MatchRoute_first_match (routes : List RouteConfig) (path method : String) :
    (∀ r rs, MatchRoute routes path method = some (r, rs) ↔
      ∃ pre post, routes = pre ++ r :: post ∧
        (∀ q ∈ pre, q.matchPath path = false ∨
          q.rules.filter (ruleMethodMatches (goToUpper method)) = []) ∧
        r.matchPath path = true ∧
        rs = r.rules.filter (ruleMethodMatches (goToUpper method)) ∧ rs ≠ []) ∧
    (MatchRoute routes path method = none ↔
      ∀ q ∈ routes, q.matchPath path = false ∨
        q.rules.filter (ruleMethodMatches (goToUpper method)) = []) :=
  ⟨fun r rs => matchRouteLoop_eq_some path (goToUpper method) routes r rs,
    matchRouteLoop_eq_none path (goToUpper method) routes⟩

/-- Witness for MatchRoute_first_match: a route whose pattern matches
/health but whose single rule only allows GET yields no route for PUT. -/
theorem MatchRoute_first_match_witness :
    MatchRoute [⟨"health", fun p => p = "/health",
      [⟨["GET"], some false, [], false⟩]⟩] "/health" "put" = none :=
  (MatchRoute_first_match [⟨"health", fun p => p = "/health",
      [⟨["GET"], some false, [], false⟩]⟩] "/health" "put").2.mpr
    (by
      intro q hq
      rcases List.mem_singleton.mp hq with rfl
      exact Or.inr (by decide))

end Gateway
